import Mathlib

/-!
Shallow embedding of the pg-rules engine (RulesExecutionService, MatchRuleFactory)
and proofs of the specification claims about it.

Modelling conventions:
- SQL values are `Value` (text, integer, boolean, text/json array, NULL).
- A table row is an association list from column name to value; a missing
  column reads as NULL (`getCol`).
- A table is a list of rows; an UPDATE maps each row independently and its
  reported `numUpdatedRows` is the number of rows matched.
- The database regular-expression engine (the PostgreSQL case-sensitive `~`
  operator, or the equivalent `regexp_like` emulation) is an abstract
  parameter `rmatch : String → String → Bool`; the engine only chooses which
  predicate to compile, never interprets patterns itself.
- Fallible statements return `Except String`; the surrounding Kysely
  transaction rolls the table back to its pre-call state on error.
-/

/-- Value stored in a table cell or used in a rule's match/apply mapping.
`vArr` models a PostgreSQL text[]/jsonb array (the tracking column). -/
inductive Value where
  | vStr (s : String)
  | vInt (n : Int)
  | vBool (b : Bool)
  | vArr (xs : List String)
  | vNull
deriving Repr, DecidableEq

/-- A table row: association list from column name to value.
The first binding of a name is the column's content. -/
abbrev Row := List (String × Value)

/-- A table is a list of rows. -/
abbrev Table := List Row

/-- Read a column; a column absent from the row reads as SQL NULL. -/
def getCol : Row → String → Value
  | [], _ => Value.vNull
  | (k, w) :: rest, c => if k = c then w else getCol rest c

/-- Write a column: replace the first binding of the name, or append one. -/
def setCol : Row → String → Value → Row
  | [], c, v => [(c, v)]
  | (k, w) :: rest, c, v =>
      if k = c then (k, v) :: rest else (k, w) :: setCol rest c v

/-- SQL equality: `col = x` is never satisfied when either side is NULL,
otherwise structural equality. Models the `where(key, '=', value)` clauses. -/
def sqlEquals : Value → Value → Bool
  | Value.vNull, _ => false
  | _, Value.vNull => false
  | a, b => a == b

/-- Array content of a tracking cell after COALESCE with the empty array:
`COALESCE(field, empty_array)` reads NULL as the empty list. -/
def coalesceArr : Value → List String
  | Value.vArr xs => xs
  | _ => []

/-- Rule entity (src/MatchRule interface used by the engine): name, match
mapping, apply mapping, priority. The source's `match` field is a Lean
keyword, so it is called `matchOn` here; entries are in JS object-key order. -/
structure MatchRule where
  ruleName : String
  matchOn : List (String × Value)
  apply : List (String × Value)
  priority : Int
deriving Repr, DecidableEq

/-- Whitespace trim of a string, as JS String.prototype.trim / String.trim:
drop leading and trailing whitespace. Defined over the character list so it
is kernel-computable. -/
def jsTrim (s : String) : String :=
  String.mk (((s.data.dropWhile Char.isWhitespace).reverse.dropWhile Char.isWhitespace).reverse)

/-- MatchRuleFactory.createRule: rejects an empty/blank rule name, trims it,
and normalizes the priority with the JS expression
`(priority && priority >= 0) ? priority : 0` (0 is falsy, so a zero or
negative priority becomes 0). -/
def createRule (ruleName : String) (matchOn apply : List (String × Value))
    (priority : Int) : Except String MatchRule :=
  if jsTrim ruleName = "" then
    Except.error "Rule name must be a non-empty string"
  else
    Except.ok
      { ruleName := jsTrim ruleName
        matchOn := matchOn
        apply := apply
        priority := if priority ≠ 0 ∧ priority ≥ 0 then priority else 0 }

/-- Insert a rule into an already priority-sorted list, after every rule of
strictly smaller priority and before every rule of greater-or-equal priority.
Folding this over a batch gives the stable ascending sort performed by
`[...rules].sort((a, b) => a.priority - b.priority)` (JS array sort is
stable, so equal-priority rules keep their original order). -/
def insertRule (r : MatchRule) : List MatchRule → List MatchRule
  | [] => [r]
  | x :: xs => if x.priority < r.priority then x :: insertRule r xs else r :: x :: xs

/-- Stable ascending sort of a batch by priority (applyRules line 87). -/
def sortRules (rules : List MatchRule) : List MatchRule :=
  rules.foldr insertRule []

/-- Compiled WHERE predicate on one column. `regexCS` is the case-sensitive
regular-expression test (PostgreSQL `~`, or `regexp_like` when the operator
is unsupported); `equalsVal` is direct SQL equality. -/
inductive WherePred where
  | regexCS (col : String) (pattern : String)
  | equalsVal (col : String) (v : Value)
deriving Repr, DecidableEq

/-- Condition compiler (applyRules lines 122-137): every string-typed match
value compiles to the case-sensitive regex predicate on its column, every
non-string value to direct equality. The branch is on the value's type
(`typeof value === 'string'`) only. -/
def compileMatch : List (String × Value) → List WherePred
  | [] => []
  | (k, Value.vStr s) :: rest => WherePred.regexCS k s :: compileMatch rest
  | (k, v) :: rest => WherePred.equalsVal k v :: compileMatch rest

/-- Evaluate one compiled predicate against a row, given the database regex
engine `rmatch`. A regex predicate on a non-text cell is unsatisfied. -/
def evalPred (rmatch : String → String → Bool) (row : Row) : WherePred → Bool
  | WherePred.regexCS col pat =>
      match getCol row col with
      | Value.vStr s => rmatch s pat
      | _ => false
  | WherePred.equalsVal col v => sqlEquals (getCol row col) v

/-- A row satisfies a WHERE clause iff it satisfies every compiled predicate
(the query builder ANDs the per-column `where` calls). -/
def rowMatches (rmatch : String → String → Bool) (preds : List WherePred) (row : Row) : Bool :=
  preds.all (evalPred rmatch row)

/-- One SET assignment: a plain value from the apply mapping, or the
server-side tracking append
`field = JSON_ARRAY_APPEND(COALESCE(field, JSON_ARRAY()), ruleName)`. -/
inductive Assign where
  | set (col : String) (v : Value)
  | trackAppend (col : String) (ruleName : String)
deriving Repr, DecidableEq

/-- Effective tracking column: the stored `appliedRulesField` is used only
when JS-truthy, i.e. non-null and non-empty (applyRules line 107,
`if (this.appliedRulesField)`). -/
def trackCol : Option String → Option String
  | none => none
  | some s => if s = "" then none else some s

/-- Mutation compiler (applyRules lines 104-113): the SET object starts as a
copy of the apply mapping and, when a tracking field is configured, gains the
tracking-append assignment for that field (written last, so it wins over any
apply entry for the same column, as the JS object update does). -/
def buildUpdateObject (field : Option String) (rule : MatchRule) : List Assign :=
  rule.apply.map (fun kv => Assign.set kv.1 kv.2) ++
    (match trackCol field with
     | some t => [Assign.trackAppend t rule.ruleName]
     | none => [])

/-- Apply a SET list to one row. As in SQL UPDATE, every right-hand side
(here the tracking COALESCE/append) reads the row's pre-update values. -/
def applyAssigns (assigns : List Assign) (row : Row) : Row :=
  assigns.foldl
    (fun acc a =>
      match a with
      | Assign.set c v => setCol acc c v
      | Assign.trackAppend c name =>
          setCol acc c (Value.vArr (coalesceArr (getCol row c) ++ [name])))
    row

/-- Declared SQL type of a column. -/
inductive ColTy where
  | tStr
  | tInt
  | tBool
  | tArr
deriving Repr, DecidableEq

/-- A value is storable in a column of the given type (NULL fits any type). -/
def typeOk : ColTy → Value → Bool
  | _, Value.vNull => true
  | ColTy.tStr, Value.vStr _ => true
  | ColTy.tInt, Value.vInt _ => true
  | ColTy.tBool, Value.vBool _ => true
  | ColTy.tArr, Value.vArr _ => true
  | _, _ => false

/-- A SET assignment is well typed against the table schema; the tracking
append requires an array-typed column. -/
def assignTypeOk (schema : String → ColTy) : Assign → Bool
  | Assign.set c v => typeOk (schema c) v
  | Assign.trackAppend c _ => schema c == ColTy.tArr

/-- Execute one UPDATE statement: fails (as the database would, e.g. on a
type mismatch) when some SET assignment is ill typed; otherwise reports the
number of rows matched and rewrites exactly the matching rows. -/
def execUpdate (schema : String → ColTy) (rmatch : String → String → Bool)
    (preds : List WherePred) (assigns : List Assign) (table : Table) :
    Except String (Nat × Table) :=
  if assigns.all (assignTypeOk schema) then
    Except.ok
      (table.countP (fun row => rowMatches rmatch preds row),
       table.map (fun row =>
         if rowMatches rmatch preds row then applyAssigns assigns row else row))
  else
    Except.error "type mismatch"

/-- Body of the applyRules transaction (lines 90-145): iterate the sorted
rules; a rule with an empty apply mapping is skipped (line 98), then the SET
object is built, then a rule with an empty match mapping is skipped
(line 117); otherwise its UPDATE executes and its row count is accumulated.
A failing UPDATE aborts the loop with the error. -/
def applyRulesLoop (schema : String → ColTy) (rmatch : String → String → Bool)
    (field : Option String) :
    List MatchRule → Table → Nat → Except String (Nat × Table)
  | [], table, total => Except.ok (total, table)
  | rule :: rest, table, total =>
      if rule.apply.isEmpty then
        applyRulesLoop schema rmatch field rest table total
      else if rule.matchOn.isEmpty then
        applyRulesLoop schema rmatch field rest table total
      else
        match execUpdate schema rmatch (compileMatch rule.matchOn)
            (buildUpdateObject field rule) table with
        | Except.ok (n, table2) =>
            applyRulesLoop schema rmatch field rest table2 (total + n)
        | Except.error e => Except.error e

/-- Decidable equality for `Except`, needed to compute with call outcomes. -/
instance {ε α : Type} [DecidableEq ε] [DecidableEq α] : DecidableEq (Except ε α) := fun x y =>
  match x, y with
  | Except.ok a, Except.ok b =>
      if h : a = b then Decidable.isTrue (by rw [h])
      else Decidable.isFalse (fun hc => h (Except.ok.inj hc))
  | Except.ok _, Except.error _ => Decidable.isFalse (fun hc => Except.noConfusion hc)
  | Except.error _, Except.ok _ => Decidable.isFalse (fun hc => Except.noConfusion hc)
  | Except.error e, Except.error f =>
      if h : e = f then Decidable.isTrue (by rw [h])
      else Decidable.isFalse (fun hc => h (Except.error.inj hc))

/-- Outcome of an applyRules call: the returned count or the thrown error,
the table state observable after the call (rolled back on error), and
whether a transaction was opened. -/
structure ApplyResult where
  res : Except String Nat
  table : Table
  txOpened : Bool
deriving Repr, DecidableEq

/-- applyRules (lines 81-147): an empty rule list returns 0 immediately,
before the transaction is opened; otherwise the batch is stably sorted by
ascending priority and run inside one transaction, whose rollback restores
the original table when any UPDATE fails. -/
def applyRules (schema : String → ColTy) (rmatch : String → String → Bool)
    (field : Option String) (rules : List MatchRule) (table : Table) : ApplyResult :=
  if rules.isEmpty then
    { res := Except.ok 0, table := table, txOpened := false }
  else
    match applyRulesLoop schema rmatch field (sortRules rules) table 0 with
    | Except.ok (total, table2) =>
        { res := Except.ok total, table := table2, txOpened := true }
    | Except.error e =>
        { res := Except.error e, table := table, txOpened := true }

/-- Per-rule affected-row counts of a batch run, in execution order; a
skipped rule contributes 0, and the list stops at a failing UPDATE. -/
def ruleCounts (schema : String → ColTy) (rmatch : String → String → Bool)
    (field : Option String) : List MatchRule → Table → List Nat
  | [], _ => []
  | rule :: rest, table =>
      if rule.apply.isEmpty then 0 :: ruleCounts schema rmatch field rest table
      else if rule.matchOn.isEmpty then 0 :: ruleCounts schema rmatch field rest table
      else
        match execUpdate schema rmatch (compileMatch rule.matchOn)
            (buildUpdateObject field rule) table with
        | Except.ok (n, table2) => n :: ruleCounts schema rmatch field rest table2
        | Except.error _ => []

/-- Effect of one rule of the batch on one row: the identity when the rule
is skipped or the row does not match, otherwise the SET application. -/
def rowRunOne (rmatch : String → String → Bool) (field : Option String)
    (rule : MatchRule) (row : Row) : Row :=
  if rule.apply.isEmpty then row
  else if rule.matchOn.isEmpty then row
  else if rowMatches rmatch (compileMatch rule.matchOn) row then
    applyAssigns (buildUpdateObject field rule) row
  else row

/-- Effect of a whole rule sequence on one row, in execution order. -/
def rowRun (rmatch : String → String → Bool) (field : Option String)
    (rules : List MatchRule) (row : Row) : Row :=
  rules.foldl (fun r rule => rowRunOne rmatch field rule r) row

/-- Copy of one source row into the results table as done by the engine
revision (`INSERT INTO results SELECT * FROM target`, positional): every
source column verbatim, and the extra `applied_rules text[]` column filled by
its empty-array default. -/
def copiedRowAll (row : Row) : Row :=
  setCol row "applied_rules" (Value.vArr [])

/-- initialiseResultsTableData (engine revision, RulesExecutionService.ts
lines 57-63): TRUNCATE the results table — discarding its prior content —
then bulk-insert every source row. -/
def initialiseResultsTableData (source prior : Table) : Table :=
  source.map copiedRowAll

/-- resetResultsTableIfExists (engine revision, lines 65-73): ensure the
results table exists, then reinitialise its data from the source, inside one
transaction; returns the new snapshot content. -/
def resetResultsTableIfExists (source prior : Table) : Table :=
  initialiseResultsTableData source prior

/-- Column description read from information_schema (name and whether the
column is an identity/auto-generated column). -/
structure ColumnInfo where
  name : String
  isIdentity : Bool
deriving Repr, DecidableEq

/-- Copy of one source row in the later `_results` revision's PostgreSQL
path: only the non-identity columns are listed in the INSERT and copied from
the source; identity columns are absent from the column list, so the
database generates their values (modelled by `gen`, the snapshot table's own
sequence); the `applied_rules` column takes its empty-array default. -/
def copiedRowPg (columns : List ColumnInfo) (gen : Int) (row : Row) : Row :=
  ((columns.filter (fun ci => !ci.isIdentity)).map
      (fun ci => (ci.name, getCol row ci.name))) ++
    ((columns.filter (fun ci => ci.isIdentity)).map
      (fun ci => (ci.name, Value.vInt gen))) ++
    [("applied_rules", Value.vArr [])]

/-- Row-by-row copy with the generated identity value advancing per row. -/
def copyRowsPg (columns : List ColumnInfo) (gen : Nat → Int) :
    Nat → List Row → List Row
  | _, [] => []
  | i, r :: rest => copiedRowPg columns (gen i) r :: copyRowsPg columns gen (i + 1) rest

/-- initialiseResultsTableData (later `_results` revision, embedded from
src/src/test-database.ts): TRUNCATE the results table, then, on PostgreSQL,
query information_schema for the source's non-identity columns and insert
only those (identity values are regenerated by the snapshot table, so copied
rows cannot collide with its own key generation); on other backends insert
all columns as in the engine revision. -/
def initialiseResultsTableDataV2 (isPostgres : Bool) (columns : List ColumnInfo)
    (gen : Nat → Int) (source prior : Table) : Table :=
  if isPostgres then copyRowsPg columns gen 0 source
  else source.map copiedRowAll

/-- resetResultsTableIfExists (later `_results` revision): reinitialise the
snapshot data from the source's current rows. -/
def resetResultsTableIfExistsV2 (isPostgres : Bool) (columns : List ColumnInfo)
    (gen : Nat → Int) (source prior : Table) : Table :=
  initialiseResultsTableDataV2 isPostgres columns gen source prior

/-- setAppliedRulesField (lines 36-38): store the trimmed field name. -/
def setAppliedRulesField (fieldName : String) : Option String :=
  some (jsTrim fieldName)

/-- Error thrown by provenance operations when no tracking field is set. -/
def notConfiguredMsg : String :=
  "appliedRulesField is not configured. Use setAppliedRulesField() first."

/-- Optional equality filter of the provenance accessors: conjunction of
`where(key, '=', value)` over the given conditions (none means all rows). -/
def filterMatches (whereConditions : Option (List (String × Value))) (row : Row) : Bool :=
  (whereConditions.getD []).all (fun kv => sqlEquals (getCol row kv.1) kv.2)

/-- clearAppliedRules (lines 155-176): fails fast when the tracking field is
not configured (null or empty after trim); otherwise one UPDATE sets the
tracking column to the empty array on every row matching the optional
equality filter, returning the number of rows touched. -/
def clearAppliedRules (field : Option String)
    (whereConditions : Option (List (String × Value))) (table : Table) :
    Except String (Nat × Table) :=
  match trackCol field with
  | none => Except.error notConfiguredMsg
  | some t =>
      Except.ok
        (table.countP (filterMatches whereConditions),
         table.map (fun row =>
           if filterMatches whereConditions row then setCol row t (Value.vArr []) else row))

/-- Normalisation of one tracking entry to a string (normalizeAppliedRules
inner branch). The source's JSON-literal re-parsing branches collapse to the
identity here because the embedding stores already-decoded values, so a
plain stored string is returned as itself and scalars are stringified. -/
def normalizeOne : Value → String
  | Value.vNull => ""
  | Value.vStr s => s
  | Value.vInt n => toString n
  | Value.vBool b => toString b
  | Value.vArr xs => String.intercalate "," xs

/-- normalizeAppliedRules (lines 178-223): NULL becomes the empty list, an
array value is normalised element-wise, any other single value is wrapped
into a one-element list. -/
def normalizeAppliedRules : Value → List String
  | Value.vNull => []
  | Value.vArr xs => xs.map (fun s => normalizeOne (Value.vStr s))
  | v => [normalizeOne v]

/-- getRowsWithAppliedRules (lines 231-258): fails fast when the tracking
field is not configured; otherwise selects the rows matching the optional
equality filter and pairs each with its normalised applied-rules list. -/
def getRowsWithAppliedRules (field : Option String)
    (whereConditions : Option (List (String × Value))) (table : Table) :
    Except String (List (Row × List String)) :=
  match trackCol field with
  | none => Except.error notConfiguredMsg
  | some t =>
      Except.ok
        ((table.filter (filterMatches whereConditions)).map
          (fun row => (row, normalizeAppliedRules (getCol row t))))

/-- Last value assigned to a column by a key-value mapping (JS object
semantics: a later entry for the same key overwrites an earlier one). -/
def lastVal : List (String × Value) → String → Option Value
  | [], _ => none
  | kv :: rest, c =>
      match lastVal rest c with
      | some v => some v
      | none => if kv.1 = c then some kv.2 else none

/-- Value a SET list writes to a column (last write wins), if any; the
tracking append is resolved against the pre-update row, as in SQL. -/
def assignedValue : List Assign → Row → String → Option Value
  | [], _, _ => none
  | a :: rest, row, c =>
      match assignedValue rest row c with
      | some v => some v
      | none =>
          match a with
          | Assign.set k v => if k = c then some v else none
          | Assign.trackAppend k name =>
              if k = c then some (Value.vArr (coalesceArr (getCol row k) ++ [name]))
              else none

theorem getCol_setCol (r : Row) (c : String) (v : Value) (c2 : String) :
    getCol (setCol r c v) c2 = if c = c2 then v else getCol r c2 := by
  induction r with
  | nil => simp [setCol, getCol]
  | cons kv rest ih =>
      obtain ⟨k, w⟩ := kv
      simp only [setCol]
      by_cases hk : k = c
      · subst hk
        by_cases hc : k = c2
        · subst hc
          simp [getCol]
        · simp [getCol, hc]
      · by_cases hc : k = c2
        · subst hc
          have hcc : ¬ c = k := fun h => hk h.symm
          simp [getCol, hk, hcc]
        · simp [getCol, hk, hc, ih]

theorem foldl_assigns_getCol (row : Row) (c : String) (assigns : List Assign) :
    ∀ acc : Row,
      getCol
        (assigns.foldl
          (fun acc a =>
            match a with
            | Assign.set k v => setCol acc k v
            | Assign.trackAppend k name =>
                setCol acc k (Value.vArr (coalesceArr (getCol row k) ++ [name])))
          acc) c =
      match assignedValue assigns row c with
      | some v => v
      | none => getCol acc c := by
  induction assigns with
  | nil => intro acc; simp [assignedValue]
  | cons a rest ih =>
      intro acc
      simp only [List.foldl_cons]
      rw [ih]
      cases h : assignedValue rest row c with
      | some v => simp [assignedValue, h]
      | none =>
          cases a with
          | set k v =>
              simp only [assignedValue, h, getCol_setCol]
              by_cases hk : k = c <;> simp [hk]
          | trackAppend k name =>
              simp only [assignedValue, h, getCol_setCol]
              by_cases hk : k = c <;> simp [hk]

theorem applyAssigns_getCol (assigns : List Assign) (row : Row) (c : String) :
    getCol (applyAssigns assigns row) c =
      match assignedValue assigns row c with
      | some v => v
      | none => getCol row c :=
  foldl_assigns_getCol row c assigns row

theorem assignedValue_append (l1 l2 : List Assign) (row : Row) (c : String) :
    assignedValue (l1 ++ l2) row c =
      match assignedValue l2 row c with
      | some v => some v
      | none => assignedValue l1 row c := by
  induction l1 with
  | nil =>
      simp only [List.nil_append, assignedValue]
      cases assignedValue l2 row c <;> rfl
  | cons a rest ih =>
      simp only [List.cons_append, assignedValue, List.append_eq]
      rw [ih]
      cases assignedValue l2 row c <;> cases assignedValue rest row c <;> rfl

theorem assignedValue_map_set (apply : List (String × Value)) (row : Row) (c : String) :
    assignedValue (apply.map (fun kv => Assign.set kv.1 kv.2)) row c = lastVal apply c := by
  induction apply with
  | nil => rfl
  | cons kv rest ih => simp only [List.map_cons, assignedValue, lastVal, ih]

theorem assignedValue_buildUpdateObject (field : Option String) (rule : MatchRule)
    (row : Row) (c : String) :
    assignedValue (buildUpdateObject field rule) row c =
      match trackCol field with
      | some t =>
          if t = c then
            some (Value.vArr (coalesceArr (getCol row t) ++ [rule.ruleName]))
          else lastVal rule.apply c
      | none => lastVal rule.apply c := by
  unfold buildUpdateObject
  cases htc : trackCol field with
  | none => simp [assignedValue_append, assignedValue, assignedValue_map_set]
  | some t =>
      rw [assignedValue_append, assignedValue_map_set]
      by_cases hk : t = c <;> simp [assignedValue, hk]

theorem applyRulesLoop_cons_skip (schema : String → ColTy) (rmatch : String → String → Bool)
    (field : Option String) (r : MatchRule) (rest : List MatchRule)
    (table : Table) (total : Nat)
    (h : r.apply.isEmpty = true ∨ r.matchOn.isEmpty = true) :
    applyRulesLoop schema rmatch field (r :: rest) table total =
      applyRulesLoop schema rmatch field rest table total := by
  rcases h with h | h
  · simp [applyRulesLoop, h]
  · by_cases ha : r.apply.isEmpty <;> simp [applyRulesLoop, ha, h]

theorem applyRulesLoop_cons_exec (schema : String → ColTy) (rmatch : String → String → Bool)
    (field : Option String) (r : MatchRule) (rest : List MatchRule)
    (table : Table) (total : Nat)
    (ha : r.apply.isEmpty = false) (hm2 : r.matchOn.isEmpty = false) :
    applyRulesLoop schema rmatch field (r :: rest) table total =
      match execUpdate schema rmatch (compileMatch r.matchOn)
          (buildUpdateObject field r) table with
      | Except.ok p => applyRulesLoop schema rmatch field rest p.2 (total + p.1)
      | Except.error e => Except.error e := by
  simp only [applyRulesLoop, ha, hm2, Bool.false_eq_true, if_false]
  cases execUpdate schema rmatch (compileMatch r.matchOn) (buildUpdateObject field r) table with
  | ok p => rfl
  | error e => rfl

theorem ruleCounts_cons_skip (schema : String → ColTy) (rmatch : String → String → Bool)
    (field : Option String) (r : MatchRule) (rest : List MatchRule) (table : Table)
    (h : r.apply.isEmpty = true ∨ r.matchOn.isEmpty = true) :
    ruleCounts schema rmatch field (r :: rest) table =
      0 :: ruleCounts schema rmatch field rest table := by
  rcases h with h | h
  · simp [ruleCounts, h]
  · by_cases ha : r.apply.isEmpty <;> simp [ruleCounts, ha, h]

theorem ruleCounts_cons_exec (schema : String → ColTy) (rmatch : String → String → Bool)
    (field : Option String) (r : MatchRule) (rest : List MatchRule) (table : Table)
    (ha : r.apply.isEmpty = false) (hm2 : r.matchOn.isEmpty = false) :
    ruleCounts schema rmatch field (r :: rest) table =
      match execUpdate schema rmatch (compileMatch r.matchOn)
          (buildUpdateObject field r) table with
      | Except.ok p => p.1 :: ruleCounts schema rmatch field rest p.2
      | Except.error _ => [] := by
  simp only [ruleCounts, ha, hm2, Bool.false_eq_true, if_false]
  cases execUpdate schema rmatch (compileMatch r.matchOn) (buildUpdateObject field r) table with
  | ok p => rfl
  | error e => rfl

theorem applyRulesLoop_append (schema : String → ColTy) (rmatch : String → String → Bool)
    (field : Option String) (l2 l1 : List MatchRule) :
    ∀ (table : Table) (total n1 : Nat) (t1 : Table),
      applyRulesLoop schema rmatch field l1 table total = Except.ok (n1, t1) →
      applyRulesLoop schema rmatch field (l1 ++ l2) table total =
        applyRulesLoop schema rmatch field l2 t1 n1 := by
  induction l1 with
  | nil =>
      intro table total n1 t1 h
      simp only [applyRulesLoop, Except.ok.injEq, Prod.mk.injEq] at h
      obtain ⟨h1, h2⟩ := h
      subst h1; subst h2
      simp
  | cons r rest ih =>
      intro table total n1 t1 h
      by_cases ha : r.apply.isEmpty
      · rw [applyRulesLoop_cons_skip schema rmatch field r rest table total (Or.inl ha)] at h
        rw [List.cons_append,
          applyRulesLoop_cons_skip schema rmatch field r (rest ++ l2) table total (Or.inl ha)]
        exact ih table total n1 t1 h
      · rw [Bool.not_eq_true] at ha
        by_cases hm : r.matchOn.isEmpty
        · rw [applyRulesLoop_cons_skip schema rmatch field r rest table total (Or.inr hm)] at h
          rw [List.cons_append,
            applyRulesLoop_cons_skip schema rmatch field r (rest ++ l2) table total (Or.inr hm)]
          exact ih table total n1 t1 h
        · rw [Bool.not_eq_true] at hm
          rw [applyRulesLoop_cons_exec schema rmatch field r rest table total ha hm] at h
          rw [List.cons_append,
            applyRulesLoop_cons_exec schema rmatch field r (rest ++ l2) table total ha hm]
          cases hx : execUpdate schema rmatch (compileMatch r.matchOn)
              (buildUpdateObject field r) table with
          | ok p =>
              rw [hx] at h
              simp only
              exact ih p.2 (total + p.1) n1 t1 h
          | error e =>
              rw [hx] at h
              exact absurd h (fun hc => Except.noConfusion hc)

theorem rowRun_cons (rmatch : String → String → Bool) (field : Option String)
    (r : MatchRule) (rest : List MatchRule) (row : Row) :
    rowRun rmatch field (r :: rest) row =
      rowRun rmatch field rest (rowRunOne rmatch field r row) := by
  simp [rowRun]

theorem rowRunOne_skip (rmatch : String → String → Bool) (field : Option String)
    (r : MatchRule) (row : Row)
    (h : r.apply.isEmpty = true ∨ r.matchOn.isEmpty = true) :
    rowRunOne rmatch field r row = row := by
  rcases h with h | h
  · simp [rowRunOne, h]
  · by_cases ha : r.apply.isEmpty <;> simp [rowRunOne, ha, h]

theorem rowRunOne_exec (rmatch : String → String → Bool) (field : Option String)
    (r : MatchRule) (row : Row)
    (ha : r.apply.isEmpty = false) (hm2 : r.matchOn.isEmpty = false) :
    rowRunOne rmatch field r row =
      if rowMatches rmatch (compileMatch r.matchOn) row then
        applyAssigns (buildUpdateObject field r) row
      else row := by
  simp [rowRunOne, ha, hm2]

theorem execUpdate_ok_elim (schema : String → ColTy) (rmatch : String → String → Bool)
    (preds : List WherePred) (assigns : List Assign) (table : Table)
    (m : Nat) (tb : Table)
    (h : execUpdate schema rmatch preds assigns table = Except.ok (m, tb)) :
    m = table.countP (fun row => rowMatches rmatch preds row) ∧
      tb = table.map (fun row =>
        if rowMatches rmatch preds row then applyAssigns assigns row else row) := by
  unfold execUpdate at h
  by_cases hty : assigns.all (assignTypeOk schema)
  · simp only [hty, if_true, Except.ok.injEq, Prod.mk.injEq] at h
    exact ⟨h.1.symm, h.2.symm⟩
  · simp [hty] at h

theorem applyRulesLoop_rowwise (schema : String → ColTy) (rmatch : String → String → Bool)
    (field : Option String) (rules : List MatchRule) :
    ∀ (table : Table) (total n : Nat) (t2 : Table),
      applyRulesLoop schema rmatch field rules table total = Except.ok (n, t2) →
      t2 = table.map (rowRun rmatch field rules) := by
  induction rules with
  | nil =>
      intro table total n t2 h
      simp only [applyRulesLoop, Except.ok.injEq, Prod.mk.injEq] at h
      rw [← h.2]
      rw [show rowRun rmatch field [] = id from rfl, List.map_id]
  | cons r rest ih =>
      intro table total n t2 h
      by_cases ha : r.apply.isEmpty
      · rw [applyRulesLoop_cons_skip schema rmatch field r rest table total (Or.inl ha)] at h
        rw [ih table total n t2 h]
        refine List.map_congr_left ?_
        intro row _
        rw [rowRun_cons, rowRunOne_skip rmatch field r row (Or.inl ha)]
      · rw [Bool.not_eq_true] at ha
        by_cases hm : r.matchOn.isEmpty
        · rw [applyRulesLoop_cons_skip schema rmatch field r rest table total (Or.inr hm)] at h
          rw [ih table total n t2 h]
          refine List.map_congr_left ?_
          intro row _
          rw [rowRun_cons, rowRunOne_skip rmatch field r row (Or.inr hm)]
        · rw [Bool.not_eq_true] at hm
          rw [applyRulesLoop_cons_exec schema rmatch field r rest table total ha hm] at h
          cases hx : execUpdate schema rmatch (compileMatch r.matchOn)
              (buildUpdateObject field r) table with
          | ok p =>
              rw [hx] at h
              simp only at h
              obtain ⟨m, tb⟩ := p
              have htb := (execUpdate_ok_elim schema rmatch (compileMatch r.matchOn)
                (buildUpdateObject field r) table m tb hx).2
              rw [ih tb (total + m) n t2 h, htb, List.map_map]
              refine List.map_congr_left ?_
              intro row _
              rw [Function.comp_apply, rowRun_cons, rowRunOne_exec rmatch field r row ha hm]
          | error e =>
              rw [hx] at h
              exact absurd h (fun hc => Except.noConfusion hc)

theorem applyRulesLoop_sum (schema : String → ColTy) (rmatch : String → String → Bool)
    (field : Option String) (rules : List MatchRule) :
    ∀ (table : Table) (total n : Nat) (t2 : Table),
      applyRulesLoop schema rmatch field rules table total = Except.ok (n, t2) →
      n = total + (ruleCounts schema rmatch field rules table).sum := by
  induction rules with
  | nil =>
      intro table total n t2 h
      simp only [applyRulesLoop, Except.ok.injEq, Prod.mk.injEq] at h
      simp [ruleCounts, ← h.1]
  | cons r rest ih =>
      intro table total n t2 h
      by_cases ha : r.apply.isEmpty
      · rw [applyRulesLoop_cons_skip schema rmatch field r rest table total (Or.inl ha)] at h
        rw [ruleCounts_cons_skip schema rmatch field r rest table (Or.inl ha)]
        have := ih table total n t2 h
        simp only [List.sum_cons]
        omega
      · rw [Bool.not_eq_true] at ha
        by_cases hm : r.matchOn.isEmpty
        · rw [applyRulesLoop_cons_skip schema rmatch field r rest table total (Or.inr hm)] at h
          rw [ruleCounts_cons_skip schema rmatch field r rest table (Or.inr hm)]
          have := ih table total n t2 h
          simp only [List.sum_cons]
          omega
        · rw [Bool.not_eq_true] at hm
          rw [applyRulesLoop_cons_exec schema rmatch field r rest table total ha hm] at h
          rw [ruleCounts_cons_exec schema rmatch field r rest table ha hm]
          cases hx : execUpdate schema rmatch (compileMatch r.matchOn)
              (buildUpdateObject field r) table with
          | ok p =>
              rw [hx] at h
              simp only at h
              have := ih p.2 (total + p.1) n t2 h
              simp only [List.sum_cons]
              omega
          | error e =>
              rw [hx] at h
              exact absurd h (fun hc => Except.noConfusion hc)

theorem buildUpdateObject_congr (f1 f2 : Option String) (h : trackCol f1 = trackCol f2)
    (rule : MatchRule) : buildUpdateObject f1 rule = buildUpdateObject f2 rule := by
  unfold buildUpdateObject
  rw [h]

theorem applyRulesLoop_field_congr (schema : String → ColTy) (rmatch : String → String → Bool)
    (f1 f2 : Option String) (h : trackCol f1 = trackCol f2) (rules : List MatchRule) :
    ∀ (table : Table) (total : Nat),
      applyRulesLoop schema rmatch f1 rules table total =
        applyRulesLoop schema rmatch f2 rules table total := by
  induction rules with
  | nil => intro table total; rfl
  | cons r rest ih =>
      intro table total
      by_cases ha : r.apply.isEmpty
      · rw [applyRulesLoop_cons_skip schema rmatch f1 r rest table total (Or.inl ha),
          applyRulesLoop_cons_skip schema rmatch f2 r rest table total (Or.inl ha)]
        exact ih table total
      · rw [Bool.not_eq_true] at ha
        by_cases hm : r.matchOn.isEmpty
        · rw [applyRulesLoop_cons_skip schema rmatch f1 r rest table total (Or.inr hm),
            applyRulesLoop_cons_skip schema rmatch f2 r rest table total (Or.inr hm)]
          exact ih table total
        · rw [Bool.not_eq_true] at hm
          rw [applyRulesLoop_cons_exec schema rmatch f1 r rest table total ha hm,
            applyRulesLoop_cons_exec schema rmatch f2 r rest table total ha hm,
            buildUpdateObject_congr f1 f2 h r]
          cases execUpdate schema rmatch (compileMatch r.matchOn)
              (buildUpdateObject f2 r) table with
          | ok p => exact ih p.2 (total + p.1)
          | error e => rfl

theorem sortRules_pair (a b : MatchRule) :
    sortRules [a, b] = if b.priority < a.priority then [b, a] else [a, b] := by
  simp [sortRules, insertRule]

theorem applyRules_ok_elim (schema : String → ColTy) (rmatch : String → String → Bool)
    (field : Option String) (rules : List MatchRule) (table : Table)
    (n : Nat) (t2 : Table) (tx : Bool)
    (hne : rules ≠ [])
    (h : applyRules schema rmatch field rules table =
      { res := Except.ok n, table := t2, txOpened := tx }) :
    applyRulesLoop schema rmatch field (sortRules rules) table 0 = Except.ok (n, t2) ∧
      tx = true := by
  have hemp : rules.isEmpty = false := by
    cases rules with
    | nil => exact absurd rfl hne
    | cons r rest => rfl
  unfold applyRules at h
  rw [hemp] at h
  simp only [Bool.false_eq_true, if_false] at h
  cases hx : applyRulesLoop schema rmatch field (sortRules rules) table 0 with
  | ok p =>
      rw [hx] at h
      obtain ⟨m, tb⟩ := p
      simp only [ApplyResult.mk.injEq, Except.ok.injEq] at h
      obtain ⟨h1, h2, h3⟩ := h
      subst h1; subst h2
      exact ⟨rfl, h3.symm⟩
  | error e =>
      rw [hx] at h
      simp only [ApplyResult.mk.injEq] at h
      exact absurd h.1 (fun hc => Except.noConfusion hc)


theorem mem_insertRule (r y : MatchRule) (l : List MatchRule) :
    y ∈ insertRule r l ↔ y = r ∨ y ∈ l := by
  induction l with
  | nil => simp [insertRule]
  | cons x xs ih =>
      simp only [insertRule]
      split <;> simp only [List.mem_cons, ih] <;> tauto

theorem insertRule_pairwise (r : MatchRule) (l : List MatchRule)
    (h : List.Pairwise (fun x y : MatchRule => x.priority ≤ y.priority) l) :
    List.Pairwise (fun x y : MatchRule => x.priority ≤ y.priority) (insertRule r l) := by
  induction l with
  | nil => simp [insertRule]
  | cons x xs ih =>
      simp only [insertRule]
      split
      · rename_i hlt
        refine List.Pairwise.cons ?_ (ih h.tail)
        intro y hy
        rcases (mem_insertRule r y xs).mp hy with hy | hy
        · subst hy; omega
        · exact List.rel_of_pairwise_cons h hy
      · rename_i hge
        refine List.Pairwise.cons ?_ h
        intro y hy
        rcases List.mem_cons.mp hy with hy | hy
        · subst hy; omega
        · have hx := List.rel_of_pairwise_cons h hy
          omega

theorem insertRule_perm (r : MatchRule) (l : List MatchRule) :
    (insertRule r l).Perm (r :: l) := by
  induction l with
  | nil => simp [insertRule]
  | cons x xs ih =>
      simp only [insertRule]
      split
      · exact ((ih.cons x).trans (List.Perm.swap r x xs))
      · exact List.Perm.refl _

theorem sortRules_perm (rules : List MatchRule) : (sortRules rules).Perm rules := by
  induction rules with
  | nil => simp [sortRules]
  | cons r rest ih =>
      simp only [sortRules, List.foldr_cons]
      exact (insertRule_perm r (List.foldr insertRule [] rest)).trans (ih.cons r)

theorem sortRules_sorted (rules : List MatchRule) :
    List.Pairwise (fun x y : MatchRule => x.priority ≤ y.priority) (sortRules rules) := by
  induction rules with
  | nil => simp [sortRules]
  | cons r rest ih =>
      simp only [sortRules, List.foldr_cons]
      exact insertRule_pairwise r _ ih

theorem insertRule_filter (r : MatchRule) (l : List MatchRule) (p : Int) :
    (insertRule r l).filter (fun x => x.priority == p) =
      if r.priority == p then r :: l.filter (fun x => x.priority == p)
      else l.filter (fun x => x.priority == p) := by
  induction l with
  | nil =>
      by_cases hr : r.priority = p <;> simp [insertRule, hr]
  | cons x xs ih =>
      simp only [insertRule]
      split
      · rename_i hlt
        by_cases hx : x.priority = p
        · have hr : ¬ r.priority = p := by omega
          simp [List.filter_cons, hx, hr, ih]
        · simp [List.filter_cons, hx, ih]
      · simp [List.filter_cons]

theorem sortRules_stable (rules : List MatchRule) (p : Int) :
    (sortRules rules).filter (fun x => x.priority == p) =
      rules.filter (fun x => x.priority == p) := by
  induction rules with
  | nil => rfl
  | cons r rest ih =>
      simp only [sortRules, List.foldr_cons] at ih ⊢
      rw [insertRule_filter]
      by_cases hr : r.priority = p <;> simp [List.filter_cons, hr, ih]

theorem applyRules_field_congr (schema : String → ColTy) (rmatch : String → String → Bool)
    (f1 f2 : Option String) (h : trackCol f1 = trackCol f2)
    (rules : List MatchRule) (table : Table) :
    applyRules schema rmatch f1 rules table = applyRules schema rmatch f2 rules table := by
  unfold applyRules
  rw [applyRulesLoop_field_congr schema rmatch f1 f2 h (sortRules rules) table 0]

/-- Claim C2: in applyRules, every string-valued match entry compiles to a
case-sensitive regular-expression predicate on its column and every
non-string entry (number, boolean, null, array) to an exact-equality
predicate, the WHERE clause is the conjunction of these per-column
predicates, and the classification is by the value's type only — a
numeric-looking string such as "25" still compiles to a regex predicate
while the number 25 compiles to equality. -/
theorem compileMatch_type_directed (entries : List (String × Value))
    (rmatch : String → String → Bool) (row : Row) :
    compileMatch entries = entries.map (fun kv =>
      match kv.2 with
      | Value.vStr s => WherePred.regexCS kv.1 s
      | _ => WherePred.equalsVal kv.1 kv.2) ∧
    rowMatches rmatch (compileMatch entries) row =
      entries.all (fun kv =>
        match kv.2 with
        | Value.vStr s =>
            (match getCol row kv.1 with
             | Value.vStr content => rmatch content s
             | _ => false)
        | _ => sqlEquals (getCol row kv.1) kv.2) ∧
    compileMatch [("age", Value.vStr "25")] = [WherePred.regexCS "age" "25"] ∧
    compileMatch [("age", Value.vInt 25)] = [WherePred.equalsVal "age" (Value.vInt 25)] := by
  refine ⟨?_, ?_, rfl, rfl⟩
  · induction entries with
    | nil => rfl
    | cons kv rest ih =>
        obtain ⟨k, v⟩ := kv
        cases v <;> simp [compileMatch, ih]
  · unfold rowMatches
    induction entries with
    | nil => rfl
    | cons kv rest ih =>
        obtain ⟨k, v⟩ := kv
        cases v <;> simp only [compileMatch, List.all_cons, ih] <;> rfl

/-- Claim C9: MatchRuleFactory.createRule (hence create/createRules) does not
reject a negative priority: construction succeeds for any non-blank name and
a negative priority is silently normalized to 0, so the rule runs in the
earliest priority group, while zero and positive integer priorities are
returned unchanged. -/
theorem createRule_normalizes_negative_priority (name : String)
    (matchOn apply : List (String × Value)) (p : Int)
    (hname : jsTrim name ≠ "") :
    ∃ r : MatchRule, createRule name matchOn apply p = Except.ok r ∧
      r.ruleName = jsTrim name ∧ r.matchOn = matchOn ∧ r.apply = apply ∧
      (p < 0 → r.priority = 0) ∧ (0 ≤ p → r.priority = p) := by
  unfold createRule
  rw [if_neg hname]
  refine ⟨_, rfl, rfl, rfl, rfl, ?_, ?_⟩
  · intro hp
    simp only
    rw [if_neg (by omega)]
  · intro hp
    by_cases h0 : p = 0
    · subst h0
      simp
    · simp only
      rw [if_pos ⟨h0, hp⟩]

theorem createRule_normalizes_negative_priority_witness :
    ∃ r : MatchRule, createRule "demo" [] [] (-5) = Except.ok r ∧
      r.ruleName = jsTrim "demo" ∧ r.matchOn = [] ∧ r.apply = [] ∧
      ((-5 : Int) < 0 → r.priority = 0) ∧ (0 ≤ (-5 : Int) → r.priority = (-5 : Int)) :=
  createRule_normalizes_negative_priority "demo" [] [] (-5) (by decide)

/-- Claim C10: setAppliedRulesField with a whitespace-only string stores the
trimmed empty string, which every consumer treats exactly as an unset
tracking field: applyRules adds no tracking assignment (its outcome equals a
run with no field configured at all), while getRowsWithAppliedRules and
clearAppliedRules fail with the not-configured error. -/
theorem setAppliedRulesField_blank_is_unconfigured (s : String) (hs : jsTrim s = "")
    (schema : String → ColTy) (rmatch : String → String → Bool)
    (rules : List MatchRule) (table : Table)
    (w : Option (List (String × Value))) (rule : MatchRule) :
    trackCol (setAppliedRulesField s) = none ∧
    buildUpdateObject (setAppliedRulesField s) rule =
      rule.apply.map (fun kv => Assign.set kv.1 kv.2) ∧
    applyRules schema rmatch (setAppliedRulesField s) rules table =
      applyRules schema rmatch none rules table ∧
    clearAppliedRules (setAppliedRulesField s) w table = Except.error notConfiguredMsg ∧
    getRowsWithAppliedRules (setAppliedRulesField s) w table =
      Except.error notConfiguredMsg := by
  have htc : trackCol (setAppliedRulesField s) = none := by
    simp [setAppliedRulesField, trackCol, hs]
  refine ⟨htc, ?_, ?_, ?_, ?_⟩
  · unfold buildUpdateObject
    rw [htc]
    simp
  · exact applyRules_field_congr schema rmatch (setAppliedRulesField s) none htc rules table
  · unfold clearAppliedRules
    rw [htc]
  · unfold getRowsWithAppliedRules
    rw [htc]

theorem setAppliedRulesField_blank_is_unconfigured_witness :
    trackCol (setAppliedRulesField "   ") = none ∧
    buildUpdateObject (setAppliedRulesField "   ") ⟨"r1", [], [("x", Value.vInt 1)], 0⟩ =
      [Assign.set "x" (Value.vInt 1)] ∧
    applyRules (fun _ => ColTy.tInt) (fun _ _ => false) (setAppliedRulesField "   ") [] [] =
      applyRules (fun _ => ColTy.tInt) (fun _ _ => false) none [] [] ∧
    clearAppliedRules (setAppliedRulesField "   ") none [] = Except.error notConfiguredMsg ∧
    getRowsWithAppliedRules (setAppliedRulesField "   ") none [] =
      Except.error notConfiguredMsg :=
  setAppliedRulesField_blank_is_unconfigured "   " (by decide)
    (fun _ => ColTy.tInt) (fun _ _ => false) [] [] none ⟨"r1", [], [("x", Value.vInt 1)], 0⟩

/-- Claim C5: applyRules returns 0 without opening a transaction when the
rule list is empty, and otherwise its return value is the sum, over the
executed (priority-sorted) rules, of the row count each rule's UPDATE
touched — so one row updated by two rules of the same batch is counted
twice in the total. -/
theorem applyRules_count_is_sum_over_rules (schema : String → ColTy)
    (rmatch : String → String → Bool) (field : Option String)
    (rules : List MatchRule) (table t2 : Table) (n : Nat) (tx : Bool)
    (h : applyRules schema rmatch field rules table =
      { res := Except.ok n, table := t2, txOpened := tx }) :
    (rules = [] → n = 0 ∧ t2 = table ∧ tx = false) ∧
    n = (ruleCounts schema rmatch field (sortRules rules) table).sum := by
  constructor
  · intro he
    subst he
    unfold applyRules at h
    simp only [List.isEmpty_nil, if_true, ApplyResult.mk.injEq, Except.ok.injEq] at h
    exact ⟨h.1.symm, h.2.1.symm, h.2.2.symm⟩
  · by_cases he : rules = []
    · subst he
      unfold applyRules at h
      simp only [List.isEmpty_nil, if_true, ApplyResult.mk.injEq, Except.ok.injEq] at h
      rw [← h.1]
      rfl
    · obtain ⟨hloop, _⟩ := applyRules_ok_elim schema rmatch field rules table n t2 tx he h
      have := applyRulesLoop_sum schema rmatch field (sortRules rules) table 0 n t2 hloop
      simpa using this

theorem applyRules_count_is_sum_over_rules_witness :
    (([⟨"r1", [("cat", Value.vStr "A")], [("x", Value.vStr "a")], 0⟩,
       ⟨"r2", [("cat", Value.vStr "A")], [("x", Value.vStr "b")], 0⟩] :
        List MatchRule) = [] →
      2 = 0 ∧ ([[("cat", Value.vStr "A"), ("x", Value.vStr "b")]] : Table) =
        [[("cat", Value.vStr "A")]] ∧ true = false) ∧
    2 = (ruleCounts (fun _ => ColTy.tStr) (fun s p => s == p) none
      (sortRules [⟨"r1", [("cat", Value.vStr "A")], [("x", Value.vStr "a")], 0⟩,
        ⟨"r2", [("cat", Value.vStr "A")], [("x", Value.vStr "b")], 0⟩])
      [[("cat", Value.vStr "A")]]).sum :=
  applyRules_count_is_sum_over_rules (fun _ => ColTy.tStr) (fun s p => s == p) none
    [⟨"r1", [("cat", Value.vStr "A")], [("x", Value.vStr "a")], 0⟩,
     ⟨"r2", [("cat", Value.vStr "A")], [("x", Value.vStr "b")], 0⟩]
    [[("cat", Value.vStr "A")]]
    [[("cat", Value.vStr "A"), ("x", Value.vStr "b")]] 2 true (by decide)

/-- Claim C6: a rule whose match mapping or apply mapping is empty is
skipped inside the batch loop: no UPDATE is executed for it (running the
batch with the rule is identical to running the batch without it, wherever
it sits between its siblings), it contributes zero rows to the total, and
the remaining rules still run; in particular a batch made only of such
rules returns its accumulator unchanged and leaves the table untouched. -/
theorem applyRules_skips_empty_match_or_apply (schema : String → ColTy)
    (rmatch : String → String → Bool) (field : Option String) (r : MatchRule)
    (hskip : r.apply = [] ∨ r.matchOn = []) :
    (∀ (l1 l2 : List MatchRule) (table : Table) (total : Nat),
      applyRulesLoop schema rmatch field (l1 ++ r :: l2) table total =
        applyRulesLoop schema rmatch field (l1 ++ l2) table total) ∧
    (∀ (rules : List MatchRule) (table : Table) (total : Nat),
      (∀ x ∈ rules, x.apply = [] ∨ x.matchOn = []) →
      applyRulesLoop schema rmatch field rules table total =
        Except.ok (total, table)) := by
  have hskipb : r.apply.isEmpty = true ∨ r.matchOn.isEmpty = true := by
    rcases hskip with h | h
    · exact Or.inl (by rw [h]; rfl)
    · exact Or.inr (by rw [h]; rfl)
  constructor
  · intro l1
    induction l1 with
    | nil =>
        intro l2 table total
        rw [List.nil_append, List.nil_append,
          applyRulesLoop_cons_skip schema rmatch field r l2 table total hskipb]
    | cons x xs ih =>
        intro l2 table total
        by_cases ha : x.apply.isEmpty
        · rw [List.cons_append, List.cons_append,
            applyRulesLoop_cons_skip schema rmatch field x (xs ++ r :: l2) table total (Or.inl ha),
            applyRulesLoop_cons_skip schema rmatch field x (xs ++ l2) table total (Or.inl ha)]
          exact ih l2 table total
        · rw [Bool.not_eq_true] at ha
          by_cases hm : x.matchOn.isEmpty
          · rw [List.cons_append, List.cons_append,
              applyRulesLoop_cons_skip schema rmatch field x (xs ++ r :: l2) table total (Or.inr hm),
              applyRulesLoop_cons_skip schema rmatch field x (xs ++ l2) table total (Or.inr hm)]
            exact ih l2 table total
          · rw [Bool.not_eq_true] at hm
            rw [List.cons_append, List.cons_append,
              applyRulesLoop_cons_exec schema rmatch field x (xs ++ r :: l2) table total ha hm,
              applyRulesLoop_cons_exec schema rmatch field x (xs ++ l2) table total ha hm]
            cases execUpdate schema rmatch (compileMatch x.matchOn)
                (buildUpdateObject field x) table with
            | ok p => exact ih l2 p.2 (total + p.1)
            | error e => rfl
  · intro rules
    induction rules with
    | nil => intro table total _; rfl
    | cons x xs ih =>
        intro table total hall
        have hx : x.apply.isEmpty = true ∨ x.matchOn.isEmpty = true := by
          rcases hall x (List.mem_cons_self x xs) with h | h
          · exact Or.inl (by rw [h]; rfl)
          · exact Or.inr (by rw [h]; rfl)
        rw [applyRulesLoop_cons_skip schema rmatch field x xs table total hx]
        exact ih table total (fun y hy => hall y (List.mem_cons_of_mem x hy))

theorem applyRules_skips_empty_match_or_apply_witness :
    (applyRulesLoop (fun _ => ColTy.tStr) (fun s p => s == p) none
        ([] ++ (⟨"noMatch", [], [("x", Value.vStr "a")], 0⟩ : MatchRule) ::
          [⟨"good", [("cat", Value.vStr "A")], [("x", Value.vStr "b")], 0⟩])
        [[("cat", Value.vStr "A")]] 0 =
      applyRulesLoop (fun _ => ColTy.tStr) (fun s p => s == p) none
        ([] ++ [⟨"good", [("cat", Value.vStr "A")], [("x", Value.vStr "b")], 0⟩])
        [[("cat", Value.vStr "A")]] 0) ∧
    applyRulesLoop (fun _ => ColTy.tStr) (fun s p => s == p) none
        [⟨"noMatch", [], [("x", Value.vStr "a")], 0⟩]
        [[("cat", Value.vStr "A")]] 0 = Except.ok (0, [[("cat", Value.vStr "A")]]) :=
  ⟨(applyRules_skips_empty_match_or_apply (fun _ => ColTy.tStr) (fun s p => s == p) none
      ⟨"noMatch", [], [("x", Value.vStr "a")], 0⟩ (Or.inr rfl)).1
      [] [⟨"good", [("cat", Value.vStr "A")], [("x", Value.vStr "b")], 0⟩]
      [[("cat", Value.vStr "A")]] 0,
   (applyRules_skips_empty_match_or_apply (fun _ => ColTy.tStr) (fun s p => s == p) none
      ⟨"noMatch", [], [("x", Value.vStr "a")], 0⟩ (Or.inr rfl)).2
      [⟨"noMatch", [], [("x", Value.vStr "a")], 0⟩]
      [[("cat", Value.vStr "A")]] 0
      (by intro x hx; simp at hx; subst hx; exact Or.inr rfl)⟩

/-- Claim C7: resetResultsTableIfExists (engine revision) is idempotent:
its outcome depends only on the source's current rows — a repeated call
after a source mutation reflects the latest source, any prior snapshot
content including accumulated tracking data is discarded by the truncate —
and the snapshot holds exactly the source's rows, with every non-tracking
column unchanged and the tracking column reset to the empty array. -/
theorem resetResultsTable_idempotent (s1 s2 prior : Table) (i : Nat) (row : Row)
    (c : String) (hrow : s2[i]? = some row) (hc : c ≠ "applied_rules") :
    resetResultsTableIfExists s2 (resetResultsTableIfExists s1 prior) =
      resetResultsTableIfExists s2 prior ∧
    (resetResultsTableIfExists s2 prior).length = s2.length ∧
    ∃ row2, (resetResultsTableIfExists s2 prior)[i]? = some row2 ∧
      getCol row2 c = getCol row c ∧
      getCol row2 "applied_rules" = Value.vArr [] := by
  refine ⟨rfl, by simp [resetResultsTableIfExists, initialiseResultsTableData], ?_⟩
  refine ⟨copiedRowAll row, ?_, ?_, ?_⟩
  · simp [resetResultsTableIfExists, initialiseResultsTableData, List.getElem?_map, hrow]
  · unfold copiedRowAll
    rw [getCol_setCol]
    rw [if_neg (fun h => hc h.symm)]
  · unfold copiedRowAll
    rw [getCol_setCol]
    simp

theorem resetResultsTable_idempotent_witness :
    resetResultsTableIfExists [[("a", Value.vStr "x")]]
        (resetResultsTableIfExists [[("a", Value.vStr "old")]]
          [[("a", Value.vStr "stale"), ("applied_rules", Value.vArr ["r9"])]]) =
      resetResultsTableIfExists [[("a", Value.vStr "x")]]
        [[("a", Value.vStr "stale"), ("applied_rules", Value.vArr ["r9"])]] ∧
    (resetResultsTableIfExists [[("a", Value.vStr "x")]]
      [[("a", Value.vStr "stale"), ("applied_rules", Value.vArr ["r9"])]]).length =
      ([[("a", Value.vStr "x")]] : Table).length ∧
    ∃ row2, (resetResultsTableIfExists [[("a", Value.vStr "x")]]
        [[("a", Value.vStr "stale"), ("applied_rules", Value.vArr ["r9"])]])[0]? = some row2 ∧
      getCol row2 "a" = getCol [("a", Value.vStr "x")] "a" ∧
      getCol row2 "applied_rules" = Value.vArr [] :=
  resetResultsTable_idempotent [[("a", Value.vStr "old")]] [[("a", Value.vStr "x")]]
    [[("a", Value.vStr "stale"), ("applied_rules", Value.vArr ["r9"])]]
    0 [("a", Value.vStr "x")] "a" (by decide) (by decide)

/-- Claim C3: if any single UPDATE in an applyRules batch fails (for example
a type mismatch), the error aborts the loop and the transaction wrapping the
whole batch rolls back: the call returns the error and the observable table
is exactly the pre-call table, even when earlier rules of the same batch had
already produced intermediate effects. -/
theorem applyRules_rolls_back_on_update_failure (schema : String → ColTy)
    (rmatch : String → String → Bool) (field : Option String)
    (rules l1 l2 : List MatchRule) (r : MatchRule) (table t1 : Table)
    (n1 : Nat) (e : String)
    (hne : rules ≠ [])
    (hsplit : sortRules rules = l1 ++ r :: l2)
    (hpre : applyRulesLoop schema rmatch field l1 table 0 = Except.ok (n1, t1))
    (ha : r.apply.isEmpty = false) (hm2 : r.matchOn.isEmpty = false)
    (hfail : execUpdate schema rmatch (compileMatch r.matchOn)
      (buildUpdateObject field r) t1 = Except.error e) :
    applyRules schema rmatch field rules table =
      { res := Except.error e, table := table, txOpened := true } := by
  have hloop : applyRulesLoop schema rmatch field (sortRules rules) table 0 =
      Except.error e := by
    rw [hsplit,
      applyRulesLoop_append schema rmatch field (r :: l2) l1 table 0 n1 t1 hpre,
      applyRulesLoop_cons_exec schema rmatch field r l2 t1 n1 ha hm2, hfail]
  have hemp : rules.isEmpty = false := by
    cases rules with
    | nil => exact absurd rfl hne
    | cons x xs => rfl
  unfold applyRules
  rw [hemp]
  simp only [Bool.false_eq_true, if_false, hloop]

theorem applyRules_rolls_back_on_update_failure_witness :
    applyRules (fun c => if c = "num" then ColTy.tInt else ColTy.tStr)
      (fun s p => s == p) none
      [⟨"good", [("cat", Value.vStr "A")], [("st", Value.vStr "x")], 0⟩,
       ⟨"bad", [("cat", Value.vStr "A")], [("num", Value.vStr "oops")], 1⟩]
      [[("cat", Value.vStr "A"), ("st", Value.vStr "s0"), ("num", Value.vInt 0)]] =
      { res := Except.error "type mismatch",
        table := [[("cat", Value.vStr "A"), ("st", Value.vStr "s0"), ("num", Value.vInt 0)]],
        txOpened := true } :=
  applyRules_rolls_back_on_update_failure
    (fun c => if c = "num" then ColTy.tInt else ColTy.tStr) (fun s p => s == p) none
    [⟨"good", [("cat", Value.vStr "A")], [("st", Value.vStr "x")], 0⟩,
     ⟨"bad", [("cat", Value.vStr "A")], [("num", Value.vStr "oops")], 1⟩]
    [⟨"good", [("cat", Value.vStr "A")], [("st", Value.vStr "x")], 0⟩]
    [] ⟨"bad", [("cat", Value.vStr "A")], [("num", Value.vStr "oops")], 1⟩
    [[("cat", Value.vStr "A"), ("st", Value.vStr "s0"), ("num", Value.vInt 0)]]
    [[("cat", Value.vStr "A"), ("st", Value.vStr "x"), ("num", Value.vInt 0)]]
    1 "type mismatch" (by decide) (by decide) (by decide) (by decide) (by decide) (by decide)

theorem getCol_append_not_found (l2 : Row) (c : String) :
    ∀ l1 : Row, (∀ kv ∈ l1, kv.1 ≠ c) → getCol (l1 ++ l2) c = getCol l2 c := by
  intro l1
  induction l1 with
  | nil => intro _; rfl
  | cons kv rest ih =>
      intro h
      obtain ⟨k, w⟩ := kv
      have hk : k ≠ c := h (k, w) (List.mem_cons_self _ _)
      rw [List.cons_append]
      show (if k = c then w else getCol (rest ++ l2) c) = getCol l2 c
      rw [if_neg hk]
      exact ih (fun kv hkv => h kv (List.mem_cons_of_mem _ hkv))

theorem getCol_map_entries (f : ColumnInfo → Value) (tail : Row) :
    ∀ (cis : List ColumnInfo) (ci : ColumnInfo), ci ∈ cis →
      (cis.map ColumnInfo.name).Nodup →
      getCol ((cis.map (fun x => (x.name, f x))) ++ tail) ci.name = f ci := by
  intro cis
  induction cis with
  | nil => intro ci hci _; exact absurd hci (List.not_mem_nil ci)
  | cons x rest ih =>
      intro ci hci hnodup
      rw [List.map_cons] at hnodup
      rw [List.map_cons, List.cons_append]
      rcases List.mem_cons.mp hci with hci | hci
      · subst hci
        show (if ci.name = ci.name then f ci else _) = f ci
        rw [if_pos rfl]
      · have hxname : x.name ≠ ci.name := by
          intro heq
          have hmem : ci.name ∈ rest.map ColumnInfo.name := List.mem_map_of_mem _ hci
          rw [heq] at hnodup
          exact (List.nodup_cons.mp hnodup).1 hmem
        show (if x.name = ci.name then f x else _) = f ci
        rw [if_neg hxname]
        exact ih ci hci (List.nodup_cons.mp hnodup).2

theorem nodup_filter_names (columns : List ColumnInfo) (p : ColumnInfo → Bool)
    (h : (columns.map ColumnInfo.name).Nodup) :
    ((columns.filter p).map ColumnInfo.name).Nodup :=
  List.Nodup.sublist ((columns.filter_sublist).map ColumnInfo.name) h

theorem copyRowsPg_length (columns : List ColumnInfo) (gen : Nat → Int) :
    ∀ (rows : List Row) (k : Nat), (copyRowsPg columns gen k rows).length = rows.length := by
  intro rows
  induction rows with
  | nil => intro k; rfl
  | cons r rest ih =>
      intro k
      simp only [copyRowsPg, List.length_cons, ih]

theorem copyRowsPg_getElem (columns : List ColumnInfo) (gen : Nat → Int) :
    ∀ (rows : List Row) (k i : Nat),
      (copyRowsPg columns gen k rows)[i]? =
        (rows[i]?).map (fun row => copiedRowPg columns (gen (k + i)) row) := by
  intro rows
  induction rows with
  | nil => intro k i; simp [copyRowsPg]
  | cons r rest ih =>
      intro k i
      cases i with
      | zero => simp [copyRowsPg]
      | succ j =>
          simp only [copyRowsPg, List.getElem?_cons_succ]
          rw [ih (k + 1) j]
          have harith : k + 1 + j = k + (j + 1) := by omega
          rw [harith]

/-- Claim C4: the later `_results` revision of resetResultsTableIfExists
truncates the snapshot (its outcome is independent of any prior snapshot
content) and bulk-copies every source row on the PostgreSQL path while
excluding every identity (database-generated) column from the copied column
list: a non-identity column keeps its source value, while an identity
column's value is produced by the snapshot table's own generator, so copied
rows cannot collide with the snapshot's own key generation. -/
theorem resetResultsTableV2_excludes_generated_columns
    (columns : List ColumnInfo) (gen : Nat → Int) (source prior : Table)
    (i : Nat) (row : Row) (ci : ColumnInfo)
    (hnodup : (columns.map ColumnInfo.name).Nodup)
    (hrow : source[i]? = some row) (hci : ci ∈ columns) :
    (∀ prior2 : Table, resetResultsTableIfExistsV2 true columns gen source prior2 =
      resetResultsTableIfExistsV2 true columns gen source prior) ∧
    (resetResultsTableIfExistsV2 true columns gen source prior).length = source.length ∧
    ∃ row2, (resetResultsTableIfExistsV2 true columns gen source prior)[i]? = some row2 ∧
      (ci.isIdentity = false → getCol row2 ci.name = getCol row ci.name) ∧
      (ci.isIdentity = true → getCol row2 ci.name = Value.vInt (gen i)) := by
  refine ⟨fun prior2 => rfl, ?_, ?_⟩
  · show (copyRowsPg columns gen 0 source).length = source.length
    exact copyRowsPg_length columns gen source 0
  · refine ⟨copiedRowPg columns (gen i) row, ?_, ?_, ?_⟩
    · show (copyRowsPg columns gen 0 source)[i]? = some (copiedRowPg columns (gen i) row)
      rw [copyRowsPg_getElem columns gen source 0 i, hrow]
      simp
    · intro hid
      unfold copiedRowPg
      rw [List.append_assoc]
      exact getCol_map_entries (fun x => getCol row x.name) _
        (columns.filter (fun x => !x.isIdentity)) ci
        (List.mem_filter.mpr ⟨hci, by rw [hid]; rfl⟩)
        (nodup_filter_names columns _ hnodup)
    · intro hid
      unfold copiedRowPg
      rw [List.append_assoc]
      rw [getCol_append_not_found _ ci.name _ ?hb1]
      case hb1 =>
        intro kv hkv
        obtain ⟨x, hxmem, rfl⟩ := List.mem_map.mp hkv
        obtain ⟨hxcol, hxid⟩ := List.mem_filter.mp hxmem
        have hxne : x ≠ ci := by
          intro heq
          subst heq
          rw [hid] at hxid
          simp at hxid
        exact fun h => hxne (List.inj_on_of_nodup_map hnodup hxcol hci h)
      exact getCol_map_entries (fun _ => Value.vInt (gen i)) _
        (columns.filter (fun x => x.isIdentity)) ci
        (List.mem_filter.mpr ⟨hci, hid⟩)
        (nodup_filter_names columns _ hnodup)

theorem resetResultsTableV2_excludes_generated_columns_witness :
    (∀ prior2 : Table, resetResultsTableIfExistsV2 true [⟨"id", true⟩, ⟨"name", false⟩]
        (fun i => (100 : Int) + i) [[("id", Value.vInt 7), ("name", Value.vStr "bob")]] prior2 =
      resetResultsTableIfExistsV2 true [⟨"id", true⟩, ⟨"name", false⟩]
        (fun i => (100 : Int) + i) [[("id", Value.vInt 7), ("name", Value.vStr "bob")]]
        [[("junk", Value.vNull)]]) ∧
    (resetResultsTableIfExistsV2 true [⟨"id", true⟩, ⟨"name", false⟩]
      (fun i => (100 : Int) + i) [[("id", Value.vInt 7), ("name", Value.vStr "bob")]]
      [[("junk", Value.vNull)]]).length =
      ([[("id", Value.vInt 7), ("name", Value.vStr "bob")]] : Table).length ∧
    ∃ row2, (resetResultsTableIfExistsV2 true [⟨"id", true⟩, ⟨"name", false⟩]
        (fun i => (100 : Int) + i) [[("id", Value.vInt 7), ("name", Value.vStr "bob")]]
        [[("junk", Value.vNull)]])[0]? = some row2 ∧
      ((⟨"id", true⟩ : ColumnInfo).isIdentity = false →
        getCol row2 (⟨"id", true⟩ : ColumnInfo).name =
          getCol [("id", Value.vInt 7), ("name", Value.vStr "bob")]
            (⟨"id", true⟩ : ColumnInfo).name) ∧
      ((⟨"id", true⟩ : ColumnInfo).isIdentity = true →
        getCol row2 (⟨"id", true⟩ : ColumnInfo).name = Value.vInt ((100 : Int) + 0)) :=
  resetResultsTableV2_excludes_generated_columns
    [⟨"id", true⟩, ⟨"name", false⟩] (fun i => (100 : Int) + i)
    [[("id", Value.vInt 7), ("name", Value.vStr "bob")]] [[("junk", Value.vNull)]]
    0 [("id", Value.vInt 7), ("name", Value.vStr "bob")] ⟨"id", true⟩
    (by decide) (by decide) (by decide)

theorem getCol_applyAssigns_track (field : Option String) (rule : MatchRule) (row : Row)
    (t : String) (htc : trackCol field = some t) :
    getCol (applyAssigns (buildUpdateObject field rule) row) t =
      Value.vArr (coalesceArr (getCol row t) ++ [rule.ruleName]) := by
  rw [applyAssigns_getCol, assignedValue_buildUpdateObject, htc]
  simp

theorem assignedValue_buildUpdateObject_none (field : Option String)
    (htc : trackCol field = none) (rule : MatchRule) (row : Row) (c : String) :
    assignedValue (buildUpdateObject field rule) row c = lastVal rule.apply c := by
  rw [assignedValue_buildUpdateObject, htc]

theorem assignedValue_buildUpdateObject_some (field : Option String) (t : String)
    (htc : trackCol field = some t) (rule : MatchRule) (row : Row) (c : String) :
    assignedValue (buildUpdateObject field rule) row c =
      if t = c then
        some (Value.vArr (coalesceArr (getCol row t) ++ [rule.ruleName]))
      else lastVal rule.apply c := by
  rw [assignedValue_buildUpdateObject, htc]

theorem getCol_applyAssigns_nontrack (field : Option String) (rule : MatchRule) (row : Row)
    (f : String) (v : Value)
    (htrack : trackCol field ≠ some f) (hlast : lastVal rule.apply f = some v) :
    getCol (applyAssigns (buildUpdateObject field rule) row) f = v := by
  cases htc : trackCol field with
  | none =>
      rw [applyAssigns_getCol, assignedValue_buildUpdateObject_none field htc, hlast]
  | some t =>
      have htf : t ≠ f := fun h => htrack (by rw [htc, h])
      rw [applyAssigns_getCol, assignedValue_buildUpdateObject_some field t htc,
        if_neg htf, hlast]

theorem sortRules_single (r : MatchRule) : sortRules [r] = [r] := rfl

theorem normalizeAppliedRules_arr (xs : List String) :
    normalizeAppliedRules (Value.vArr xs) = xs := by
  simp [normalizeAppliedRules, normalizeOne]

/-- Claim C1: applyRules executes a batch in ascending priority order with
ties broken by original array position (the sort development lemmas
`sortRules_sorted`, `sortRules_stable` and `sortRules_perm` establish the
stable ordering); consequently, for two rules of priorities p1 < p2 that
both match the same row and set the same field — in either array order —
the field ends with the higher-priority rule's value after the batch, and
for two equal-priority rules the one later in the array wins. -/
theorem applyRules_priority_order_last_writer_wins
    (schema : String → ColTy) (rmatch : String → String → Bool) (field : Option String)
    (a b : MatchRule) (batch : List MatchRule) (f : String) (v : Value)
    (table t2 : Table) (i n : Nat) (tx : Bool) (row : Row)
    (hbatch : (a.priority < b.priority ∧ (batch = [a, b] ∨ batch = [b, a])) ∨
              (a.priority = b.priority ∧ batch = [a, b]))
    (hlast : lastVal b.apply f = some v)
    (hbm : b.matchOn ≠ [])
    (htrack : trackCol field ≠ some f)
    (hrow : table[i]? = some row)
    (hm1 : rowMatches rmatch (compileMatch a.matchOn) row = true)
    (hm2 : rowMatches rmatch (compileMatch b.matchOn) (rowRunOne rmatch field a row) = true)
    (hrun : applyRules schema rmatch field batch table =
      { res := Except.ok n, table := t2, txOpened := tx }) :
    ∃ row2, t2[i]? = some row2 ∧ getCol row2 f = v := by
  have hsort : sortRules batch = [a, b] := by
    rcases hbatch with ⟨hlt, hb | hb⟩ | ⟨heq, hb⟩
    · subst hb; rw [sortRules_pair, if_neg (by omega)]
    · subst hb; rw [sortRules_pair, if_pos hlt]
    · subst hb; rw [sortRules_pair, if_neg (by omega)]
  have hne : batch ≠ [] := by
    rcases hbatch with ⟨_, hb | hb⟩ | ⟨_, hb⟩ <;> (subst hb; exact List.cons_ne_nil _ _)
  obtain ⟨hloop, _⟩ := applyRules_ok_elim schema rmatch field batch table n t2 tx hne hrun
  rw [hsort] at hloop
  have ht2 := applyRulesLoop_rowwise schema rmatch field [a, b] table 0 n t2 hloop
  subst ht2
  refine ⟨rowRun rmatch field [a, b] row, ?_, ?_⟩
  · rw [List.getElem?_map, hrow]
    rfl
  · have hba : b.apply.isEmpty = false := by
      cases hb : b.apply with
      | nil => rw [hb] at hlast; exact absurd hlast (by simp [lastVal])
      | cons x xs => rfl
    have hbm2 : b.matchOn.isEmpty = false := by
      cases hb : b.matchOn with
      | nil => exact absurd hb hbm
      | cons x xs => rfl
    rw [rowRun_cons, rowRun_cons,
      show ∀ r : Row, rowRun rmatch field [] r = r from fun r => rfl,
      rowRunOne_exec rmatch field b _ hba hbm2, if_pos hm2]
    exact getCol_applyAssigns_nontrack field b _ f v htrack hlast

theorem applyRules_priority_order_last_writer_wins_witness :
    ∃ row2, ([[("cat", Value.vStr "A"), ("f", Value.vStr "two")]] : Table)[0]? = some row2 ∧
      getCol row2 "f" = Value.vStr "two" :=
  applyRules_priority_order_last_writer_wins
    (fun _ => ColTy.tStr) (fun s p => s == p) none
    ⟨"r1", [("cat", Value.vStr "A")], [("f", Value.vStr "one")], 1⟩
    ⟨"r2", [("cat", Value.vStr "A")], [("f", Value.vStr "two")], 2⟩
    [⟨"r2", [("cat", Value.vStr "A")], [("f", Value.vStr "two")], 2⟩,
     ⟨"r1", [("cat", Value.vStr "A")], [("f", Value.vStr "one")], 1⟩]
    "f" (Value.vStr "two")
    [[("cat", Value.vStr "A"), ("f", Value.vStr "zero")]]
    [[("cat", Value.vStr "A"), ("f", Value.vStr "two")]]
    0 2 true [("cat", Value.vStr "A"), ("f", Value.vStr "zero")]
    (Or.inl ⟨by decide, Or.inr rfl⟩)
    (by decide) (by decide) (by decide) (by decide) (by decide) (by decide) (by decide)

/-- Claim C8: with a tracking field configured, every applied rule appends
its ruleName to the matched row's tracking column inside the same UPDATE
(COALESCE-ing an absent value to the empty array), so two successive
applyRules calls applying r1 and then r2 to the same row leave the tracking
column holding the prior entries followed by [r1, r2] in application order,
and getRowsWithAppliedRules reports exactly that list for the row. -/
theorem applyRules_tracking_appends_in_order
    (schema : String → ColTy) (rmatch : String → String → Bool)
    (field : Option String) (t : String) (r1 r2 : MatchRule)
    (table t1 t2 : Table) (i : Nat) (row : Row)
    (n1 n2 : Nat) (b1 b2 : Bool)
    (htc : trackCol field = some t)
    (hrow : table[i]? = some row)
    (h1 : applyRules schema rmatch field [r1] table =
      { res := Except.ok n1, table := t1, txOpened := b1 })
    (ha1 : r1.apply ≠ []) (hmm1 : r1.matchOn ≠ [])
    (hm1 : rowMatches rmatch (compileMatch r1.matchOn) row = true)
    (h2 : applyRules schema rmatch field [r2] t1 =
      { res := Except.ok n2, table := t2, txOpened := b2 })
    (ha2 : r2.apply ≠ []) (hmm2 : r2.matchOn ≠ [])
    (hm2 : rowMatches rmatch (compileMatch r2.matchOn)
      (rowRunOne rmatch field r1 row) = true) :
    ∃ row2, t2[i]? = some row2 ∧
      getCol row2 t =
        Value.vArr (coalesceArr (getCol row t) ++ [r1.ruleName, r2.ruleName]) ∧
      ∃ lst, getRowsWithAppliedRules field none t2 = Except.ok lst ∧
        lst[i]? = some (row2, coalesceArr (getCol row t) ++ [r1.ruleName, r2.ruleName]) := by
  have hisempty : ∀ l : List (String × Value), l ≠ [] → l.isEmpty = false := by
    intro l hl
    cases l with
    | nil => exact absurd rfl hl
    | cons x xs => rfl
  obtain ⟨hloop1, _⟩ := applyRules_ok_elim schema rmatch field [r1] table n1 t1 b1
    (List.cons_ne_nil _ _) h1
  rw [sortRules_single] at hloop1
  have ht1 := applyRulesLoop_rowwise schema rmatch field [r1] table 0 n1 t1 hloop1
  obtain ⟨hloop2, _⟩ := applyRules_ok_elim schema rmatch field [r2] t1 n2 t2 b2
    (List.cons_ne_nil _ _) h2
  rw [sortRules_single] at hloop2
  have ht2 := applyRulesLoop_rowwise schema rmatch field [r2] t1 0 n2 t2 hloop2
  subst ht1
  subst ht2
  have hrow1 : rowRun rmatch field [r1] row = rowRunOne rmatch field r1 row := by
    rw [rowRun_cons]
    rfl
  have hrowOne1 : rowRunOne rmatch field r1 row =
      applyAssigns (buildUpdateObject field r1) row := by
    rw [rowRunOne_exec rmatch field r1 row (hisempty _ ha1) (hisempty _ hmm1), if_pos hm1]
  have htrack1 : getCol (rowRunOne rmatch field r1 row) t =
      Value.vArr (coalesceArr (getCol row t) ++ [r1.ruleName]) := by
    rw [hrowOne1]
    exact getCol_applyAssigns_track field r1 row t htc
  have hrowOne2 : rowRunOne rmatch field r2 (rowRunOne rmatch field r1 row) =
      applyAssigns (buildUpdateObject field r2) (rowRunOne rmatch field r1 row) := by
    rw [rowRunOne_exec rmatch field r2 _ (hisempty _ ha2) (hisempty _ hmm2), if_pos hm2]
  have htrack2 : getCol (rowRunOne rmatch field r2 (rowRunOne rmatch field r1 row)) t =
      Value.vArr (coalesceArr (getCol row t) ++ [r1.ruleName, r2.ruleName]) := by
    rw [hrowOne2, getCol_applyAssigns_track field r2 _ t htc, htrack1]
    simp [coalesceArr]
  refine ⟨rowRunOne rmatch field r2 (rowRunOne rmatch field r1 row), ?_, htrack2, ?_⟩
  · rw [List.getElem?_map, List.getElem?_map, hrow]
    simp only [Option.map_some']
    rw [rowRun_cons,
      show ∀ r : Row, rowRun rmatch field [] r = r from fun r => rfl, hrow1]
  · unfold getRowsWithAppliedRules
    rw [htc]
    have hfilter : ((table.map (rowRun rmatch field [r1])).map
        (rowRun rmatch field [r2])).filter (filterMatches none) =
        (table.map (rowRun rmatch field [r1])).map (rowRun rmatch field [r2]) :=
      List.filter_eq_self.mpr (fun a _ => rfl)
    rw [hfilter]
    refine ⟨_, rfl, ?_⟩
    rw [List.getElem?_map, List.getElem?_map, List.getElem?_map, hrow]
    simp only [Option.map_some']
    rw [rowRun_cons, rowRun_cons,
      show ∀ r : Row, rowRun rmatch field [] r = r from fun r => rfl,
      show ∀ r : Row, rowRun rmatch field [] r = r from fun r => rfl]
    rw [htrack2, normalizeAppliedRules_arr]

theorem applyRules_tracking_appends_in_order_witness :
    ∃ row2, ([[("cat", Value.vStr "A"), ("x", Value.vStr "b"),
        ("applied_rules", Value.vArr ["r1", "r2"])]] : Table)[0]? = some row2 ∧
      getCol row2 "applied_rules" =
        Value.vArr (coalesceArr (getCol [("cat", Value.vStr "A")] "applied_rules") ++
          ["r1", "r2"]) ∧
      ∃ lst, getRowsWithAppliedRules (some "applied_rules") none
          [[("cat", Value.vStr "A"), ("x", Value.vStr "b"),
            ("applied_rules", Value.vArr ["r1", "r2"])]] = Except.ok lst ∧
        lst[0]? = some (row2,
          coalesceArr (getCol [("cat", Value.vStr "A")] "applied_rules") ++ ["r1", "r2"]) :=
  applyRules_tracking_appends_in_order
    (fun c => if c = "applied_rules" then ColTy.tArr else ColTy.tStr)
    (fun s p => s == p) (some "applied_rules") "applied_rules"
    ⟨"r1", [("cat", Value.vStr "A")], [("x", Value.vStr "a")], 0⟩
    ⟨"r2", [("cat", Value.vStr "A")], [("x", Value.vStr "b")], 0⟩
    [[("cat", Value.vStr "A")]]
    [[("cat", Value.vStr "A"), ("x", Value.vStr "a"), ("applied_rules", Value.vArr ["r1"])]]
    [[("cat", Value.vStr "A"), ("x", Value.vStr "b"), ("applied_rules", Value.vArr ["r1", "r2"])]]
    0 [("cat", Value.vStr "A")] 1 1 true true
    (by decide) (by decide) (by decide) (by decide) (by decide) (by decide)
    (by decide) (by decide) (by decide) (by decide)
